import Mathlib

/- Verification development for the fileguard watcher (src/main.c).
   The definitions below are a shallow embedding of the event loop,
   the inotify record walk, the action dispatch, the startup checks,
   the cleanup routine and the CLI handling of that file. -/

namespace Fileguard

/- ===================== Data model: inotify records ===================== -/

/- One struct inotify_event view: int wd, uint32 mask, uint32 cookie,
   uint32 len, followed by len name bytes.  sizeof(header) = 16. -/
structure InotifyEvent where
  wd : Nat
  mask : Nat
  cookie : Nat
  len : Nat
  name : List Nat
deriving DecidableEq

/- Little-endian 32-bit read of the first four bytes of a byte list;
   bytes past the end of the list read as 0. -/
def le32 : List Nat → Nat
  | [] => 0
  | [a] => a
  | [a, b] => a + 256 * b
  | [a, b, c] => a + 256 * b + 65536 * c
  | a :: b :: c :: d :: _ => a + 256 * b + 65536 * c + 16777216 * d

/- The cast `ev = (struct inotify_event *) p` at cursor c of the buffer:
   the four header fields, then len name bytes after the header. -/
def readEvent (buf : List Nat) (c : Nat) : InotifyEvent :=
  ⟨le32 (buf.drop c),
   le32 ((buf.drop c).drop 4),
   le32 ((buf.drop c).drop 8),
   le32 ((buf.drop c).drop 12),
   ((buf.drop c).drop 16).take (le32 ((buf.drop c).drop 12))⟩

/- The record walk `for (p = buf; p < buf + rd;) { ...; p += sizeof(struct
   inotify_event) + ev->len; }`.  The fuel argument only drives structural
   recursion: every iteration advances the cursor by at least 16, so fuel n
   (used by `decode`) is never exhausted while c < n and the function agrees
   with the unguarded C loop. -/
def decodeAux (buf : List Nat) (n : Nat) : Nat → Nat → List InotifyEvent × Nat
  | 0, c => ([], c)
  | fuel + 1, c =>
    if c < n then
      (readEvent buf c :: (decodeAux buf n fuel (c + 16 + (readEvent buf c).len)).1,
       (decodeAux buf n fuel (c + 16 + (readEvent buf c).len)).2)
    else ([], c)

/- One full pass over a buffer whose valid length is n: the list of records
   the loop body sees, and the final cursor value. -/
def decode (buf : List Nat) (n : Nat) : List InotifyEvent × Nat :=
  decodeAux buf n n 0

/- Serialization of records, used to state the decoder laws: the exact byte
   layout the kernel hands to read(). -/
def encNat32 (v : Nat) : List Nat :=
  [v % 256, v / 256 % 256, v / 65536 % 256, v / 16777216 % 256]

def serializeEvent (e : InotifyEvent) : List Nat :=
  encNat32 e.wd ++ encNat32 e.mask ++ encNat32 e.cookie ++ encNat32 e.len ++ e.name

def serialize : List InotifyEvent → List Nat
  | [] => []
  | e :: es => serializeEvent e ++ serialize es

/- A record is well formed when its header fields fit in 32 bits and its
   declared length matches the name bytes physically present. -/
def WFevent (e : InotifyEvent) : Prop :=
  e.wd < 4294967296 ∧ e.mask < 4294967296 ∧ e.cookie < 4294967296 ∧
    e.len < 4294967296 ∧ e.name.length = e.len

instance decWFevent (e : InotifyEvent) : Decidable (WFevent e) :=
  inferInstanceAs (Decidable (_ ∧ _ ∧ _ ∧ _ ∧ _))

/- ===================== Action dispatch (lines 266-287) ===================== -/

inductive Effect where
  | runCommand (cmd : String)
  | appendLog (path : String) (line : String)
  | noop
deriving DecidableEq

/- The dispatch conditional of the loop body:
   if (strcmp(prepend, "execute") == 0 && strcmp(y.event, event) == 0)
       system(command);
   else if (strcmp(prepend, "log") == 0) { ... create_file(command, eventstr); }
   where eventstr = ltime ++ event ++ "\n". -/
def dispatch (prepend trigger event command ltime : String) : Effect :=
  if prepend = "execute" ∧ trigger = event then Effect.runCommand command
  else if prepend = "log" then Effect.appendLog command (ltime ++ event ++ "\n")
  else Effect.noop

/- Dispatch applied to each classified event of one buffer, in order. -/
def dispatchAll (prepend trigger command ltime : String) (evs : List String) : List Effect :=
  evs.map fun e => dispatch prepend trigger e command ltime

/- ===================== Classification (get_event) ===================== -/

/- Modelled from the spec: `get_event` is declared in fileguard.h and its body
   is not under src/.  The spec describes it as mapping the record bitmask to
   the first matching canonical event name in the fixed enumeration order,
   failing on bitmasks outside the known enumeration.  Each table entry pairs
   the inotify flag value (a distinct power of two) with its name; the bit
   test mask & flag is expressed arithmetically as mask / flag % 2 = 1. -/
def maskTable : List (Nat × String) :=
  [(1, "IN_ACCESS"), (4, "IN_ATTRIB"), (8, "IN_CLOSE_WRITE"), (16, "IN_CLOSE_NOWRITE"),
   (256, "IN_CREATE"), (512, "IN_DELETE"), (1024, "IN_DELETE_SELF"), (2, "IN_MODIFY"),
   (2048, "IN_MOVE_SELF"), (64, "IN_MOVED_FROM"), (128, "IN_MOVED_TO"), (32, "IN_OPEN"),
   (8192, "IN_UNMOUNT")]

def get_event (mask : Nat) : Option String :=
  maskTable.findSome? fun p => if mask / p.1 % 2 = 1 then some p.2 else none

/- ===================== Loop body observable outputs ===================== -/

inductive Output where
  | stdoutLine (s : String)
  | notification (ltime event : String)
  | effect (e : Effect)
deriving DecidableEq

/- The per-record body of the for loop, for a record whose classified name is
   event: printf("%s event ocurred\n", event) first (line 258), then the
   optional notification (lines 262-263), then the dispatch conditional. -/
def processRecord (prepend trigger command ltime : String) (notifier : Bool)
    (event : String) : List Output :=
  Output.stdoutLine (event ++ " event ocurred\n")
    :: ((if notifier then [Output.notification ltime event] else [])
      ++ [Output.effect (dispatch prepend trigger event command ltime)])

/- ===================== The read loop (lines 229-240) ===================== -/

inductive LoopStep where
  | continueWatching (recordsProcessed : Nat)
  | exitLoopWithReadError
deriving DecidableEq

/- One iteration of `while (sc)`: rd = read(fd, buf, BUF_LEN);
   if (rd == 0) fprintf(stdout, "read() tossed back a 0");
   else { perror the read-error message; break; }
   then the for loop over the first rd bytes.  Note the else branch catches
   every nonzero rd, positive counts included. -/
def loopIter (buf : List Nat) (rd : Int) : LoopStep :=
  if rd = 0 then LoopStep.continueWatching (decode buf 0).1.length
  else LoopStep.exitLoopWithReadError

/- ===================== The events table scan (lines 170-179) ===================== -/

/- The 13 entries of the static events array (lines 16-32).  The initializer
   has no trailing NULL sentinel. -/
def eventsTable : List String :=
  ["IN_ACCESS", "IN_ATTRIB", "IN_CLOSE_WRITE", "IN_CLOSE_NOWRITE", "IN_CREATE",
   "IN_DELETE", "IN_DELETE_SELF", "IN_MODIFY", "IN_MOVE_SELF", "IN_MOVED_FROM",
   "IN_MOVED_TO", "IN_OPEN", "IN_UNMOUNT"]

inductive ScanResult where
  | found (i : Nat)
  | outOfBounds (i : Nat)
deriving DecidableEq

/- The loop `for (int i = 0; events[i] != NULL; i++)` with its break on a
   match.  Walking past the supplied entries means the next loop-condition
   read events[i] is outside the array: that access is the outOfBounds case. -/
def scanAux (target : String) : Nat → List String → ScanResult
  | i, [] => ScanResult.outOfBounds i
  | i, e :: rest => if target = e then ScanResult.found i else scanAux target (i + 1) rest

def scanEvents (target : String) : ScanResult :=
  scanAux target 0 eventsTable

def eventFound (target : String) : Bool :=
  match scanEvents target with
  | ScanResult.found _ => true
  | ScanResult.outOfBounds _ => false

/- ===================== Startup sequence (lines 142-222) ===================== -/

inductive StartupOutcome where
  | exitedBeforeLoop
  | enteredLoop
deriving DecidableEq

/- The chain of startup checks between config load and the read loop, in
   source order: file_check on the yaml (exit on negative flag), yaml parse
   (exit on false), the supported-event scan (exit when not found), file_check
   on the inode (exit on negative), permission check (exit on negative), then
   inotify_init and inotify_add_watch - whose results fdRes and wdRes are only
   handed to perror on failure, with no exit (lines 202-210) - and finally the
   strtok split of the action string (exit when the command token is NULL). -/
def startup (yamlFlag : Int) (parseOk : Bool) (eventName : String)
    (inodeFlag : Int) (permRes : Int) (fdRes : Int) (wdRes : Int)
    (commandPresent : Bool) : StartupOutcome :=
  if yamlFlag < 0 then StartupOutcome.exitedBeforeLoop
  else if parseOk = false then StartupOutcome.exitedBeforeLoop
  else if eventFound eventName = false then StartupOutcome.exitedBeforeLoop
  else if inodeFlag < 0 then StartupOutcome.exitedBeforeLoop
  else if permRes < 0 then StartupOutcome.exitedBeforeLoop
  else if commandPresent = false then StartupOutcome.exitedBeforeLoop
  else StartupOutcome.enteredLoop

/- ===================== Cleanup (lines 49-64) ===================== -/

/- Handle state owned by the process: the watch registration and the inotify
   channel file descriptor. -/
structure Handles where
  watchActive : Bool
  channelOpen : Bool
deriving DecidableEq

/- cleanup(void) { inotify_rm_watch(fd, wd); } - it removes the watch (a
   second removal fails benignly and changes nothing) and never closes fd. -/
def cleanup (h : Handles) : Handles :=
  ⟨false, h.channelOpen⟩

/- catch_sig: the handler calls cleanup directly, then exit(), and exit runs
   the atexit-registered cleanup a second time. -/
def catch_sig (h : Handles) : Handles :=
  cleanup (cleanup h)

/- ===================== CLI yaml argument check (lines 123-133) ===================== -/

inductive ConfigChoice where
  | given (arg : List Char)
  | defaultPath
deriving DecidableEq

/- strrchr(arg, '.'): the suffix of the argument starting at its last dot,
   dot included; none when the argument has no dot. -/
def lastDotSuffix : List Char → Option (List Char)
  | [] => none
  | c :: rest =>
    match lastDotSuffix rest with
    | some s => some s
    | none => if c = '.' then some (c :: rest) else none

/- char *dot = strrchr(argv[i], '.');
   if (dot && strcmp(dot, "yaml")) yaml_target = argv[i];
   else yaml_target = CONFIG_FILE; -/
def chooseConfig (arg : List Char) : ConfigChoice :=
  match lastDotSuffix arg with
  | some dot => if dot ≠ ['y', 'a', 'm', 'l'] then ConfigChoice.given arg else ConfigChoice.defaultPath
  | none => ConfigChoice.defaultPath

/- ===================== Flag parsing (lines 76-119) ===================== -/

inductive ParseResult where
  | exited
  | proceeded (verbose notifier : Nat)
deriving DecidableEq

/- The getopt loop over "hvn".  verbose and notifier are never initialized, so
   the values they hold when a flag is absent are the indeterminate initial
   values v0 and n0 the locals happened to start with. -/
def parseFlags (verbose notifier : Nat) : List Char → ParseResult
  | [] => ParseResult.proceeded verbose notifier
  | c :: rest =>
    if c = 'h' then ParseResult.exited
    else if c = 'v' then parseFlags 1 notifier rest
    else if c = 'n' then parseFlags verbose 1 rest
    else ParseResult.exited

/- if (!verbose) log_set_quiet(1); else log_set_level(3); - the verbosity
   decision taken right after flag parsing. -/
def quietMode : ParseResult → Option Bool
  | ParseResult.proceeded v _ => some (v == 0)
  | ParseResult.exited => none

/- ===================== Concrete inputs used by witnesses ===================== -/

/- A 16-byte record with an empty name. -/
def C3rec : InotifyEvent := ⟨1, 2, 0, 0, []⟩

/- A bare 16-byte header whose len field declares 8 name bytes that are not
   present: the truncated tail. -/
def C3tail : List Nat := [3, 0, 0, 0, 2, 0, 0, 0, 0, 0, 0, 0, 8, 0, 0, 0]

/- Two well-formed records of differing name lengths. -/
def C4recs : List InotifyEvent := [⟨1, 2, 0, 0, []⟩, ⟨1, 32, 5, 3, [65, 66, 67]⟩]

/- The CLI argument config.json: it does not end in .yaml. -/
def C7arg : List Char := ['c', 'o', 'n', 'f', 'i', 'g', '.', 'j', 's', 'o', 'n']

end Fileguard

/- ===================== Theorems ===================== -/

namespace Fileguard

/- ---------- shared helper lemmas ---------- -/

theorem take_len_append (l₁ l₂ : List Nat) : (l₁ ++ l₂).take l₁.length = l₁ := by
  induction l₁ with
  | nil => rfl
  | cons a t ih => simp [ih]

theorem drop_len_append (l₁ l₂ : List Nat) : (l₁ ++ l₂).drop l₁.length = l₂ := by
  induction l₁ with
  | nil => rfl
  | cons a t ih => simp [ih]

theorem le32_encNat32 (v : Nat) (l : List Nat) (hv : v < 4294967296) :
    le32 (encNat32 v ++ l) = v := by
  simp only [encNat32, List.cons_append, List.nil_append, le32]
  omega

theorem drop4_encNat32 (v : Nat) (l : List Nat) : (encNat32 v ++ l).drop 4 = l := rfl

theorem drop8_encNat32 (v w : Nat) (l : List Nat) :
    (encNat32 v ++ (encNat32 w ++ l)).drop 8 = l := rfl

theorem drop12_encNat32 (u v w : Nat) (l : List Nat) :
    (encNat32 u ++ (encNat32 v ++ (encNat32 w ++ l))).drop 12 = l := rfl

theorem drop16_encNat32 (u v w x : Nat) (l : List Nat) :
    (encNat32 u ++ (encNat32 v ++ (encNat32 w ++ (encNat32 x ++ l)))).drop 16 = l := rfl

theorem serializeEvent_length (e : InotifyEvent) :
    (serializeEvent e).length = 16 + e.name.length := by
  simp [serializeEvent, encNat32]
  omega

theorem readEvent_append (pre rest : List Nat) :
    readEvent (pre ++ rest) pre.length = readEvent rest 0 := by
  unfold readEvent
  rw [drop_len_append]
  rfl

theorem readEvent_serializeEvent (e : InotifyEvent) (suf : List Nat) (he : WFevent e) :
    readEvent (serializeEvent e ++ suf) 0 = e := by
  obtain ⟨h1, h2, h3, h4, h5⟩ := he
  cases e with
  | mk wd mask cookie len name =>
    simp only at h1 h2 h3 h4 h5
    unfold readEvent serializeEvent
    simp only [List.drop_zero, List.append_assoc]
    rw [drop4_encNat32, drop8_encNat32, drop12_encNat32, drop16_encNat32]
    rw [le32_encNat32 _ _ h1, le32_encNat32 _ _ h2, le32_encNat32 _ _ h3,
        le32_encNat32 _ _ h4]
    rw [← h5, take_len_append]

theorem decodeAux_stop (buf : List Nat) (n fuel c : Nat) (h : n ≤ c) :
    decodeAux buf n fuel c = ([], c) := by
  cases fuel with
  | zero => rfl
  | succ f => simp [decodeAux, Nat.not_lt.mpr h]

theorem length_serialize_ge (es : List InotifyEvent) :
    es.length ≤ (serialize es).length := by
  induction es with
  | nil => simp [serialize]
  | cons e t ih =>
    have := serializeEvent_length e
    simp only [serialize, List.length_append, List.length_cons]
    omega

theorem decodeAux_consume (es : List InotifyEvent) :
    ∀ (pre tail buf : List Nat) (n fuel : Nat),
      (∀ e ∈ es, WFevent e) →
      buf = pre ++ (serialize es ++ tail) →
      n = pre.length + ((serialize es).length + tail.length) →
      decodeAux buf n (fuel + es.length) pre.length
        = (es ++ (decodeAux buf n fuel (pre.length + (serialize es).length)).1,
           (decodeAux buf n fuel (pre.length + (serialize es).length)).2) := by
  induction es with
  | nil =>
    intro pre tail buf n fuel hwf hbuf hn
    simp [serialize]
  | cons e es ih =>
    intro pre tail buf n fuel hwf hbuf hn
    have hwfe : WFevent e := hwf e (List.mem_cons_self e es)
    have hwfr : ∀ x ∈ es, WFevent x := fun x hx => hwf x (List.mem_cons_of_mem e hx)
    have hsl : (serializeEvent e).length = 16 + e.name.length := serializeEvent_length e
    have hname : e.name.length = e.len := hwfe.2.2.2.2
    have hsc : (serialize (e :: es)).length
        = (serializeEvent e).length + (serialize es).length := by
      simp [serialize]
    have hcur : pre.length < n := by omega
    have hbuf2 : buf = pre ++ (serializeEvent e ++ (serialize es ++ tail)) := by
      rw [hbuf]; simp [serialize]
    have hre : readEvent buf pre.length = e := by
      rw [hbuf2, readEvent_append, readEvent_serializeEvent e _ hwfe]
    have hstep : fuel + (e :: es).length = (fuel + es.length) + 1 := by
      simp only [List.length_cons]
      omega
    rw [hstep]
    show (if pre.length < n then
        (readEvent buf pre.length ::
          (decodeAux buf n (fuel + es.length)
            (pre.length + 16 + (readEvent buf pre.length).len)).1,
         (decodeAux buf n (fuel + es.length)
            (pre.length + 16 + (readEvent buf pre.length).len)).2)
      else ([], pre.length)) = _
    rw [if_pos hcur, hre]
    have hplen : pre.length + 16 + e.len = (pre ++ serializeEvent e).length := by
      simp only [List.length_append]
      omega
    rw [hplen]
    have hbuf3 : buf = (pre ++ serializeEvent e) ++ (serialize es ++ tail) := by
      rw [hbuf2]; simp [List.append_assoc]
    have hn3 : n = (pre ++ serializeEvent e).length + ((serialize es).length + tail.length) := by
      simp only [List.length_append]
      omega
    rw [ih (pre ++ serializeEvent e) tail buf n fuel hwfr hbuf3 hn3]
    have hc2 : (pre ++ serializeEvent e).length + (serialize es).length
        = pre.length + (serialize (e :: es)).length := by
      simp only [List.length_append]
      omega
    rw [hc2]
    simp [List.cons_append]

/- ---------- C4 ---------- -/

/-- C4: for every well-formed concatenation of records packed into a buffer of
exactly the right size n, the single forward pass - which advances the cursor
by the 16-byte header size plus the declared name length at each step - yields
exactly the original records in their original order, and the final cursor
lands exactly at n with no dangling bytes.  (The inotify header needs no tail
padding, so the alignment rounding of the spec is the identity here: each
record occupies exactly 16 + len bytes.) -/
theorem C4_decoder_offset_law (es : List InotifyEvent) (hwf : ∀ e ∈ es, WFevent e) :
    decode (serialize es) (serialize es).length = (es, (serialize es).length) := by
  have hge : es.length ≤ (serialize es).length := length_serialize_ge es
  have h := decodeAux_consume es [] [] (serialize es) (serialize es).length
      ((serialize es).length - es.length) hwf (by simp) (by simp)
  simp only [List.length_nil, Nat.zero_add, Nat.sub_add_cancel hge] at h
  rw [decodeAux_stop (serialize es) (serialize es).length
      ((serialize es).length - es.length) (serialize es).length (le_refl _)] at h
  simpa [decode] using h

/-- C4 (witness): the two concrete well-formed records of C4recs - one with an
empty name, one with a three-byte name - decode back from their serialization
with the cursor landing exactly at the buffer length. -/
theorem C4_decoder_offset_law_witness :
    decode (serialize C4recs) (serialize C4recs).length = (C4recs, (serialize C4recs).length) :=
  C4_decoder_offset_law C4recs (by decide)

/- ---------- C3 ---------- -/

/-- C3 (counterexample): a buffer holding one complete 16-byte record followed
by a 16-byte header whose len field declares 8 absent name bytes (so advancing
would pass n = 32) still decodes to TWO records: the truncated tail yields a
record instead of failing, contradicting the claim that decoding fails with
DecodeError and returns no record for the truncated tail. -/
theorem C3_counterexample :
    C3tail.length < 16 + le32 (C3tail.drop 12)
      ∧ (decode (serialize [C3rec] ++ C3tail) (serialize [C3rec] ++ C3tail).length).1.length = 2 := by
  decide

/-- C3 (amended): the record walk performs no bounds check at all: whenever the
cursor is still below n, the bytes there are read as a record - trusting the
declared name length even when header plus length passes n - so a truncated
tail yields one final record and the cursor simply overshoots n, which ends
the loop; no DecodeError exists and nothing fails or is retried. -/
theorem C3_truncated_tail_decoded (es : List InotifyEvent) (tail : List Nat)
    (hwf : ∀ e ∈ es, WFevent e) (h0 : 0 < tail.length)
    (htr : tail.length < 16 + le32 (tail.drop 12)) :
    (decode (serialize es ++ tail) (serialize es ++ tail).length).1
        = es ++ [readEvent (serialize es ++ tail) (serialize es).length]
      ∧ (serialize es ++ tail).length
          < (decode (serialize es ++ tail) (serialize es ++ tail).length).2 := by
  have hge : es.length ≤ (serialize es).length := length_serialize_ge es
  have hn2 : (serialize es ++ tail).length = (serialize es).length + tail.length :=
    List.length_append _ _
  have hles : es.length ≤ (serialize es ++ tail).length := by omega
  have h := decodeAux_consume es [] tail (serialize es ++ tail) (serialize es ++ tail).length
      ((serialize es ++ tail).length - es.length) hwf (by simp) (by simp)
  simp only [List.length_nil, Nat.zero_add, Nat.sub_add_cancel hles] at h
  obtain ⟨f2, hf2⟩ : ∃ f2, (serialize es ++ tail).length - es.length = f2 + 1 :=
    ⟨(serialize es ++ tail).length - es.length - 1, by omega⟩
  rw [hf2] at h
  have hL : (serialize es).length < (serialize es ++ tail).length := by omega
  simp only [decodeAux] at h
  rw [if_pos hL] at h
  have hre : readEvent (serialize es ++ tail) (serialize es).length = readEvent tail 0 :=
    readEvent_append (serialize es) tail
  have hlen : (readEvent tail 0).len = le32 (tail.drop 12) := by
    simp [readEvent]
  have hstop : (serialize es ++ tail).length
      ≤ (serialize es).length + 16 + (readEvent (serialize es ++ tail) (serialize es).length).len := by
    rw [hre, hlen]
    omega
  rw [decodeAux_stop (serialize es ++ tail) (serialize es ++ tail).length f2 _ hstop] at h
  constructor
  · rw [decode, h]
  · rw [decode, h]
    simp only []
    rw [hre, hlen]
    omega

/-- C3 (witness): the amended statement instantiated at the concrete one-record
buffer with the truncated 16-byte tail header declaring 8 missing name
bytes. -/
theorem C3_truncated_tail_decoded_witness :
    (decode (serialize [C3rec] ++ C3tail) (serialize [C3rec] ++ C3tail).length).1
        = [C3rec] ++ [readEvent (serialize [C3rec] ++ C3tail) (serialize [C3rec]).length]
      ∧ (serialize [C3rec] ++ C3tail).length
          < (decode (serialize [C3rec] ++ C3tail) (serialize [C3rec] ++ C3tail).length).2 :=
  C3_truncated_tail_decoded [C3rec] C3tail (by decide) (by decide) (by decide)

/- ---------- C1 ---------- -/

/-- C1: the claim says a positive read count n > 0 is handed to the decoder and
dispatch pipeline with the session remaining in Watching.  On the code, the
else branch of `if (rd == 0)` catches every nonzero rd - positive counts
included - prints the read-error message and breaks out of the watch loop, so
a positive read processes no records and leaves Watching; only a 0-byte read
continues (processing zero records).  This theorem evaluates the embedded loop
iteration at the failing input rd = 16 and at rd = 0. -/
theorem C1_positive_read_breaks_loop :
    (∀ buf : List Nat, loopIter buf 16 = LoopStep.exitLoopWithReadError)
      ∧ (∀ buf : List Nat, loopIter buf 0 = LoopStep.continueWatching 0) := by
  constructor
  · intro buf
    simp [loopIter]
  · intro buf
    simp [loopIter, decode, decodeAux]

/- ---------- C2 ---------- -/

/-- C2 (counterexample): with the rule in Log mode and trigger IN_MODIFY, an
IN_OPEN record - which differs from the trigger - still produces a side
effect: the log branch tests only the mode string, not the event, so the
claim that a non-matching event is a no-op in both modes is false. -/
theorem C2_counterexample :
    ("IN_OPEN" : String) ≠ "IN_MODIFY"
      ∧ dispatch "log" "IN_MODIFY" "IN_OPEN" "watch.log" "t " ≠ Effect.noop := by
  decide

/-- C2 (amended): in Execute mode a non-matching event performs no side effect,
and dispatching [IN_OPEN, IN_MODIFY, IN_DELETE] against trigger IN_MODIFY in
Execute mode invokes the configured action exactly once, on the IN_MODIFY
event only; in Log mode, however, the log append is performed for every
classified event regardless of whether it matches the trigger. -/
theorem C2_dispatch_selectivity :
    (∀ trigger event command ltime : String, event ≠ trigger →
        dispatch "execute" trigger event command ltime = Effect.noop)
      ∧ (∀ trigger event command ltime : String,
          dispatch "log" trigger event command ltime
            = Effect.appendLog command (ltime ++ event ++ "\n"))
      ∧ (∀ command ltime : String,
          dispatchAll "execute" "IN_MODIFY" command ltime ["IN_OPEN", "IN_MODIFY", "IN_DELETE"]
            = [Effect.noop, Effect.runCommand command, Effect.noop]) := by
  refine ⟨?_, ?_, ?_⟩
  · intro trigger event command ltime h
    have hc : ¬ (("execute" : String) = "execute" ∧ trigger = event) := by
      rintro ⟨-, he⟩
      exact h he.symm
    unfold dispatch
    rw [if_neg hc, if_neg (by decide : ¬ ("execute" : String) = "log")]
  · intro trigger event command ltime
    unfold dispatch
    rw [if_neg, if_pos rfl]
    rintro ⟨h1, -⟩
    exact absurd h1 (by decide)
  · intro command ltime
    have h1 : dispatch "execute" "IN_MODIFY" "IN_OPEN" command ltime = Effect.noop := by
      unfold dispatch
      rw [if_neg, if_neg (by decide : ¬ ("execute" : String) = "log")]
      rintro ⟨-, h⟩
      exact absurd h (by decide)
    have h2 : dispatch "execute" "IN_MODIFY" "IN_MODIFY" command ltime
        = Effect.runCommand command := by
      unfold dispatch
      rw [if_pos ⟨rfl, rfl⟩]
    have h3 : dispatch "execute" "IN_MODIFY" "IN_DELETE" command ltime = Effect.noop := by
      unfold dispatch
      rw [if_neg, if_neg (by decide : ¬ ("execute" : String) = "log")]
      rintro ⟨-, h⟩
      exact absurd h (by decide)
    simp [dispatchAll, h1, h2, h3]

/-- C2 (witness): the Execute-mode no-op clause of C2_dispatch_selectivity at a
concrete non-matching event. -/
theorem C2_dispatch_selectivity_witness :
    dispatch "execute" "IN_MODIFY" "IN_OPEN" "touch /tmp/x" "t " = Effect.noop :=
  C2_dispatch_selectivity.1 "IN_MODIFY" "IN_OPEN" "touch /tmp/x" "t " (by decide)

/- ---------- C5 ---------- -/

/-- C5 (counterexample): with every earlier startup check passing but both
inotify_init and inotify_add_watch failing (fdRes = wdRes = -1), the program
still enters the read loop: the claim that such failures are fatal before
Watching is false on the code, which only hands the results to perror. -/
theorem C5_counterexample :
    startup 0 true "IN_MODIFY" 0 0 (-1) (-1) true = StartupOutcome.enteredLoop := by
  decide

/-- C5 (amended): failure of inotify_init or inotify_add_watch is only
reported, never fatal: the startup outcome is independent of fdRes and wdRes,
and even with both negative the program proceeds into the read loop whenever
the other checks pass. -/
theorem C5_inotify_failures_not_fatal :
    (∀ (yamlFlag : Int) (parseOk : Bool) (eventName : String) (inodeFlag permRes : Int)
        (fd1 wd1 fd2 wd2 : Int) (commandPresent : Bool),
      startup yamlFlag parseOk eventName inodeFlag permRes fd1 wd1 commandPresent
        = startup yamlFlag parseOk eventName inodeFlag permRes fd2 wd2 commandPresent)
      ∧ (∀ fd wd : Int, startup 0 true "IN_MODIFY" 0 0 fd wd true
          = StartupOutcome.enteredLoop) := by
  constructor
  · intro yamlFlag parseOk eventName inodeFlag permRes fd1 wd1 fd2 wd2 commandPresent
    rfl
  · intro fd wd
    rfl

/- ---------- C6 ---------- -/

/-- C6 (counterexample): starting from an active watch and an open channel,
the release sequence leaves the channel handle open - cleanup only calls
inotify_rm_watch and never closes fd - so the claim that both handles are
released before process exit is false. -/
theorem C6_counterexample :
    cleanup ⟨true, true⟩ = ⟨false, true⟩ ∧ (cleanup ⟨true, true⟩).channelOpen = true := by
  decide

/-- C6 (amended): on every exit path the release sequence removes only the
watch handle and leaves the channel handle exactly as it was; invoking it a
second time is a no-op (idempotent), and the signal path - cleanup called
directly by catch_sig and then again by the atexit handler - equals a single
cleanup. -/
theorem C6_cleanup_watch_only_idempotent :
    ∀ h : Handles,
      cleanup h = ⟨false, h.channelOpen⟩
        ∧ cleanup (cleanup h) = cleanup h
        ∧ catch_sig h = cleanup h := by
  intro h
  exact ⟨rfl, rfl, rfl⟩

/- ---------- C7 ---------- -/

/-- C7 (counterexample): the argument config.json does not end in .yaml, yet
the program does not fall back to the default config path - it accepts the
argument - because the suffix from the last dot is ".json", which differs from
the literal "yaml", satisfying the check.  The claim that any
non-.yaml-ending argument falls back to the default is false. -/
theorem C7_counterexample :
    List.isSuffixOf ['.', 'y', 'a', 'm', 'l'] C7arg = false
      ∧ chooseConfig C7arg = ConfigChoice.given C7arg := by
  decide

theorem lastDotSuffix_cons_of_some (c : Char) (rest r : List Char)
    (h : lastDotSuffix rest = some r) : lastDotSuffix (c :: rest) = some r := by
  unfold lastDotSuffix
  rw [h]

theorem lastDotSuffix_cons_of_none (c : Char) (rest : List Char)
    (h : lastDotSuffix rest = none) :
    lastDotSuffix (c :: rest) = if c = '.' then some (c :: rest) else none := by
  unfold lastDotSuffix
  rw [h]

theorem lastDotSuffix_head_dot (l s : List Char) (hs : lastDotSuffix l = some s) :
    ∃ t, s = '.' :: t := by
  induction l generalizing s with
  | nil => exact Option.noConfusion hs
  | cons c rest ih =>
    cases hrec : lastDotSuffix rest with
    | some r =>
      rw [lastDotSuffix_cons_of_some c rest r hrec] at hs
      have hrs : r = s := Option.some.inj hs
      exact ih s (by rw [← hrs]; exact hrec)
    | none =>
      rw [lastDotSuffix_cons_of_none c rest hrec] at hs
      by_cases hc : c = '.'
      · rw [if_pos hc] at hs
        have hcs : c :: rest = s := Option.some.inj hs
        exact ⟨rest, by rw [← hcs, hc]⟩
      · rw [if_neg hc] at hs
        exact Option.noConfusion hs

theorem lastDotSuffix_eq_none_iff (l : List Char) :
    lastDotSuffix l = none ↔ '.' ∉ l := by
  induction l with
  | nil => simp [lastDotSuffix]
  | cons c rest ih =>
    cases hrec : lastDotSuffix rest with
    | some r =>
      rw [lastDotSuffix_cons_of_some c rest r hrec]
      have hr : '.' ∈ rest := by
        by_contra hm
        rw [ih.mpr hm] at hrec
        exact Option.noConfusion hrec
      simp [List.mem_cons, hr]
    | none =>
      rw [lastDotSuffix_cons_of_none c rest hrec]
      have hr : '.' ∉ rest := ih.mp hrec
      by_cases hc : c = '.'
      · have hcs : ('.' : Char) = c := hc.symm
        simp [hc, List.mem_cons, hcs]
      · have hc2 : ¬ ('.' : Char) = c := fun h => hc h.symm
        simp [hc, List.mem_cons, hc2, hr]

/-- C7 (amended): the fallback to the default path happens exactly when the
extension check fails, and the check is satisfied whenever the suffix from the
last dot differs from the literal "yaml" - which, since that suffix always
begins with the dot itself, holds for every argument containing a dot.  So
every dotted argument is accepted and exactly the dot-free arguments fall back
to the default. -/
theorem C7_fallback_iff_no_dot :
    ∀ arg : List Char,
      chooseConfig arg = if '.' ∈ arg then ConfigChoice.given arg else ConfigChoice.defaultPath := by
  intro arg
  cases harg : lastDotSuffix arg with
  | none =>
    have hm : '.' ∉ arg := (lastDotSuffix_eq_none_iff arg).mp harg
    rw [if_neg hm]
    simp only [chooseConfig, harg]
  | some s =>
    have hmem : '.' ∈ arg := by
      by_contra hm
      rw [(lastDotSuffix_eq_none_iff arg).mpr hm] at harg
      exact Option.noConfusion harg
    rw [if_pos hmem]
    obtain ⟨t, ht⟩ := lastDotSuffix_head_dot arg s harg
    have hne : s ≠ ['y', 'a', 'm', 'l'] := by
      rw [ht]
      intro he
      injection he with h1 h2
      exact absurd h1 (by decide)
    simp only [chooseConfig, harg]
    rw [if_pos hne]

/- ---------- C8 ---------- -/

/-- C8: for every record whose bitmask classifies to a canonical event name,
the loop body emits the stdout line "<event> event ocurred" as its first
output, before and regardless of the notifier flag, the configured mode and
the configured trigger - so non-matching events are not silent at the
process output.  (get_event is modelled from the spec, its body being outside
src/.) -/
theorem C8_event_printed (prepend trigger command ltime : String) (notifier : Bool)
    (mask : Nat) (event : String) (hc : get_event mask = some event) :
    (processRecord prepend trigger command ltime notifier event).head?
      = some (Output.stdoutLine (event ++ " event ocurred\n")) := rfl

/-- C8 (witness): mask 2 (IN_MODIFY) with a Log-mode rule whose trigger is a
different event and notifications off: the stdout line is still the first
output. -/
theorem C8_event_printed_witness :
    (processRecord "log" "IN_OPEN" "watch.log" "t " false "IN_MODIFY").head?
      = some (Output.stdoutLine ("IN_MODIFY" ++ " event ocurred\n")) :=
  C8_event_printed "log" "IN_OPEN" "watch.log" "t " false 2 "IN_MODIFY" (by decide)

/- ---------- C9 ---------- -/

/-- C9: the claim says the validation scan touches only in-bounds indices of
the 13-element events array.  The loop condition events[i] != NULL assumes a
NULL sentinel the initializer does not have, so a configured name matching no
entry (here IN_BOGUS) drives the scan through all 13 entries and then to the
out-of-bounds read events[13]; a known name (IN_MODIFY, index 7) is found in
bounds.  This theorem evaluates the embedded scan at both inputs. -/
theorem C9_scan_out_of_bounds :
    eventsTable.length = 13
      ∧ scanEvents "IN_MODIFY" = ScanResult.found 7
      ∧ scanEvents "IN_BOGUS" = ScanResult.outOfBounds 13 := by
  decide

/- ---------- C10 ---------- -/

/-- C10 (counterexample): two runs with the identical argument vector (no -v
and no -n) but different indeterminate initial values of the never-assigned
locals verbose and notifier take different verbosity decisions: with initial
value 0 the program calls log_set_quiet, with initial value 1 it calls
log_set_level.  The claimed determinism over arguments alone is false. -/
theorem C10_counterexample :
    quietMode (parseFlags 0 0 []) = some true
      ∧ quietMode (parseFlags 1 1 []) = some false := by
  decide

/-- C10 (amended): the verbosity and notification decisions are functions of
the argument vector together with the indeterminate initial values of the two
unassigned locals: when both -v and -n appear among the options, the parse
result - and hence both decisions - is independent of those initial values;
when a flag is absent the corresponding branch reads the uninitialized
variable. -/
theorem C10_flags_determine_when_present (args : List Char) (v0 n0 v1 n1 : Nat)
    (hv : 'v' ∈ args) (hn : 'n' ∈ args) :
    parseFlags v0 n0 args = parseFlags v1 n1 args := by
  have vIrrel : ∀ (l : List Char) (a b m : Nat), 'v' ∈ l →
      parseFlags a m l = parseFlags b m l := by
    intro l
    induction l with
    | nil => intro a b m h; cases h
    | cons c rest ih =>
      intro a b m h
      by_cases hh : c = 'h'
      · simp [parseFlags, hh]
      · by_cases hvv : c = 'v'
        · simp [parseFlags, hh, hvv]
        · have hmem : 'v' ∈ rest := by
            rcases List.mem_cons.mp h with h1 | h1
            · exact absurd h1.symm hvv
            · exact h1
          by_cases hnn : c = 'n'
          · simp only [parseFlags, if_neg hh, if_neg hvv, if_pos hnn]
            exact ih a b 1 hmem
          · simp [parseFlags, hh, hvv, hnn]
  have nIrrel : ∀ (l : List Char) (a b m : Nat), 'n' ∈ l →
      parseFlags m a l = parseFlags m b l := by
    intro l
    induction l with
    | nil => intro a b m h; cases h
    | cons c rest ih =>
      intro a b m h
      by_cases hh : c = 'h'
      · simp [parseFlags, hh]
      · by_cases hvv : c = 'v'
        · have hmem : 'n' ∈ rest := by
            rcases List.mem_cons.mp h with h1 | h1
            · exact absurd (h1.trans hvv) (by decide)
            · exact h1
          simp only [parseFlags, if_neg hh, if_pos hvv]
          exact ih a b 1 hmem
        · by_cases hnn : c = 'n'
          · simp [parseFlags, hh, hvv, hnn]
          · simp [parseFlags, hh, hvv, hnn]
  calc parseFlags v0 n0 args = parseFlags v1 n0 args := vIrrel args v0 v1 n0 hv
    _ = parseFlags v1 n1 args := nIrrel args n0 n1 v1 hn

/-- C10 (witness): with both flags present, runs whose uninitialized locals
start at 9,9 and at 0,0 parse identically. -/
theorem C10_flags_determine_when_present_witness :
    parseFlags 9 9 ['v', 'n'] = parseFlags 0 0 ['v', 'n'] :=
  C10_flags_determine_when_present ['v', 'n'] 9 9 0 0 (by decide) (by decide)

end Fileguard
